import Mathlib

/-!
# Verification of the promptflow execution-trace recorder

Shallow embedding of `src/promptflow/promptflow/tracing/_tracer.py` and of the
init-context / teardown logic of
`src/promptflow/promptflow/_sdk/_submitter/test_submitter.py`.

Modelling conventions:
* Python runtime values that flow through the recorder are embedded as `PyVal`.
  Mappings carry arbitrary `PyVal` keys (the source checks key types at run time).
* `uuid.uuid4()` is modelled by a per-tracer fresh counter (`_uuid_count`): the
  only property the source relies on is that generated ids are globally fresh.
  Trace ids are therefore `Option Nat` (`none` models the falsy empty string).
* Timestamps (`datetime.utcnow().timestamp()`) are modelled as a `Nat` supplied
  to each mutating step ("now"); an op-sequence run feeds strictly increasing
  times.
* Python object aliasing of `Trace` objects (the same object is reachable from
  `_traces`, a parent's `children` list and `_id_to_trace`) is modelled by
  storing traces once, in the id map, with `children` holding child ids; the
  dict is an insertion-shadowing association list, so assignment semantics
  match `self._id_to_trace[trace.id] = trace`.
* Fallible operations return `Option`/`Except`; nothing here raises.
-/

/-! ## Python values -/

mutual

/-- Embedded Python runtime value as seen by the tracer: strings, ints,
opaque objects (with their textual representation and whether the generic
serialization of the object encodes to JSON), lazy sequences (iterators,
modelled by the list of items they will yield), streaming proxies
(`GeneratorProxy`: buffered items so far plus remaining items), the
pass-through generator returned by `generate_from_proxy`, and dicts. -/
inductive PyVal : Type where
  | str : String → PyVal
  | int : Int → PyVal
  | obj : String → Bool → PyVal
  | iter : PyList → PyVal
  | genProxy : PyList → PyList → PyVal
  | proxyStream : PyList → PyList → PyVal
  | dict : PyEntries → PyVal
  deriving DecidableEq

/-- List of embedded Python values (items of an iterator or proxy buffer). -/
inductive PyList : Type where
  | nil : PyList
  | cons : PyVal → PyList → PyList
  deriving DecidableEq

/-- Key-value entries of an embedded Python dict, in insertion order. -/
inductive PyEntries : Type where
  | nil : PyEntries
  | cons : PyVal → PyVal → PyEntries → PyEntries
  deriving DecidableEq

end

/-- Whether a value is a Python `str`. -/
def PyVal.isStr : PyVal → Bool
  | .str _ => true
  | _ => false

/-- Whether a value is an instance of the (spec-modelled) `GeneratorProxy` type. -/
def PyVal.isGenProxy : PyVal → Bool
  | .genProxy _ _ => true
  | _ => false

/-- Whether a value is an instance of `collections.abc.Iterator`: raw lazy
sequences, streaming proxies and pass-through generators all implement the
iteration protocol. -/
def PyVal.isIterator : PyVal → Bool
  | .iter _ => true
  | .genProxy _ _ => true
  | .proxyStream _ _ => true
  | _ => false

/-- Python truthiness of an embedded value (`if trace.inputs:` in `_push`). -/
def PyVal.pyTruthy : PyVal → Bool
  | .str s => !s.isEmpty
  | .int n => n != 0
  | .obj _ _ => true
  | .iter _ => true
  | .genProxy _ _ => true
  | .proxyStream _ _ => true
  | .dict .nil => false
  | .dict (.cons _ _ _) => true

/-- All keys of the entry list are Python strings
(`all(isinstance(k, str) for k in obj.keys())`). -/
def entriesStrKeys : PyEntries → Bool
  | .nil => true
  | .cons k _ rest => k.isStr && entriesStrKeys rest

mutual

/-- Modelled from the spec: whether the generic structured serialization of a
value encodes to the target interchange format
(`json.dumps(serialize(obj), default=default_json_encoder)` succeeds; neither
`serialize` nor `default_json_encoder` is under `src/`). Strings, ints and
string-keyed dicts of encodable values encode; an opaque object encodes
exactly when its flag says so; live iterators, proxies and generators do not
encode. -/
def jsonEncodable : PyVal → Bool
  | .str _ => true
  | .int _ => true
  | .obj _ enc => enc
  | .iter _ => false
  | .genProxy _ _ => false
  | .proxyStream _ _ => false
  | .dict es => entriesEncodable es

/-- Modelled from the spec: entry-wise encodability of a dict (string keys,
encodable values). -/
def entriesEncodable : PyEntries → Bool
  | .nil => true
  | .cons k v rest => k.isStr && jsonEncodable v && entriesEncodable rest

end

/-- Modelled from the spec: Python textual representation `str(obj)`.  Only its
totality and the fact that it yields a string matter to the claims. -/
def pyStr : PyVal → String
  | .str s => s
  | .int n => toString n
  | .obj rep _ => rep
  | .iter _ => "iterator object"
  | .genProxy _ _ => "GeneratorProxy object"
  | .proxyStream _ _ => "generator object"
  | .dict _ => "dict object"

/-- Modelled from the spec: the `try` body of `Tracer.to_serializable`
(`obj = serialize(obj); json.dumps(obj, ...)`), as a result value: `some` when
the generic structured serialization encodes to the interchange format (on
values already in generic structured form the serializer is the identity),
`none` when the attempt raises. -/
def trySerialize (v : PyVal) : Option PyVal :=
  if jsonEncodable v then some v else none

/-- The `try`/`except` of `Tracer.to_serializable`: attempt the structured
serialization and fall back to the textual representation on failure. -/
def trySerializeOrStr (v : PyVal) : PyVal :=
  match trySerialize v with
  | some u => u
  | none => .str (pyStr v)

mutual

/-- `Tracer.to_serializable` (tracer source lines 64-77): recurse through
string-keyed dicts, pass `GeneratorProxy` values through unchanged, and
otherwise attempt the structured serialization with a textual fallback.
Total: the source never lets an exception escape. -/
def to_serializable : PyVal → PyVal
  | .dict es =>
      if entriesStrKeys es then .dict (to_serializableEntries es)
      else trySerializeOrStr (.dict es)
  | .genProxy b r => .genProxy b r
  | .str s => trySerializeOrStr (.str s)
  | .int n => trySerializeOrStr (.int n)
  | .obj rep enc => trySerializeOrStr (.obj rep enc)
  | .iter xs => trySerializeOrStr (.iter xs)
  | .proxyStream b r => trySerializeOrStr (.proxyStream b r)

/-- Key-by-key recursion of `to_serializable` over a string-keyed dict
(`{k: Tracer.to_serializable(v) for k, v in obj.items()}`). -/
def to_serializableEntries : PyEntries → PyEntries
  | .nil => .nil
  | .cons k v rest => .cons k (to_serializable v) (to_serializableEntries rest)

end

/-- Values on which `to_serializable` reaches its serialization attempt: every
value except string-keyed dicts (recursed) and streaming proxies (passed
through). -/
def reachesFallback : PyVal → Bool
  | .dict es => !entriesStrKeys es
  | .genProxy _ _ => false
  | _ => true

/-! ## Streaming output proxy (spec §4.2; `GeneratorProxy` is not under `src/`) -/

/-- Modelled from the spec: `GeneratorProxy(output)` wraps a lazy sequence
without consuming it eagerly: empty buffer, all items still pending.  Only the
`iter` case is reachable through the tracer (a proxy or pass-through generator
handed back as an output would be re-wrapped around its remaining items). -/
def GeneratorProxy.wrap : PyVal → PyVal
  | .iter xs => .genProxy .nil xs
  | .genProxy _ r => .genProxy .nil r
  | .proxyStream _ r => .genProxy .nil r
  | v => .genProxy .nil (.cons v .nil)

/-- Modelled from the spec: `generate_from_proxy(proxy)` is the pass-through
lazy sequence backed by the proxy (`yield from proxy`): a fresh generator
object, distinct from the original output, sharing the proxy's state. -/
def generate_from_proxy : PyVal → PyVal
  | .genProxy b r => .proxyStream b r
  | v => v

/-! ## Trace nodes and the tracer -/

/-- Trace type enumeration (`promptflow.tracing.contracts.trace.TraceType`). -/
inductive TraceType : Type where
  | function
  | tool
  | llm
  | embedding
  | flow
  deriving DecidableEq

/-- One call-tree node (the `Trace` dataclass).  `id` is `none` while the
source's falsy empty-string id is unset; `children` holds the ids of the child
traces in append order (the source holds the child objects themselves — the id
indirection models their aliasing with `_id_to_trace`). -/
structure Trace : Type where
  id : Option Nat
  name : String
  type : TraceType
  inputs : PyVal
  output : Option PyVal
  start_time : Option Nat
  end_time : Option Nat
  error : Option PyVal
  children : List Nat
  parent_id : Option Nat
  node_name : Option String
  deriving DecidableEq

/-- A Python exception as the tracer observes it: `str(e)` and
`type(e).__qualname__`. -/
structure PyError : Type where
  message : String
  qualname : String
  deriving DecidableEq

/-- `Tracer._format_error` (tracer source lines 130-135). -/
def Tracer.format_error (e : PyError) : PyVal :=
  .dict (.cons (.str "message") (.str e.message)
    (.cons (.str "type") (.str e.qualname) .nil))

/-- Lookup in the id-to-trace dict (first match wins, matching shadowing). -/
def dictGet : List (Nat × Trace) → Nat → Option Trace
  | [], _ => none
  | (k, v) :: rest, i => if i = k then some v else dictGet rest i

/-- Assignment `m[k] = v` on the id-to-trace dict. -/
def dictSet (m : List (Nat × Trace)) (k : Nat) (v : Trace) : List (Nat × Trace) :=
  (k, v) :: m

/-- The state of one `Tracer` instance: run id, optional node name, root trace
ids in append order (`self._traces`), the current-trace pointer
(`self._current_trace_id`, `none` for the falsy empty string) and the id map
(`self._id_to_trace`).  `_uuid_count` models the `uuid.uuid4()` supply. -/
structure Tracer : Type where
  run_id : String
  node_name : Option String
  traces : List Nat
  current_trace_id : Option Nat
  id_to_trace : List (Nat × Trace)
  _uuid_count : Nat
  deriving DecidableEq

/-- `Tracer.__init__` (tracer source lines 23-28). -/
def Tracer.init (run_id : String) (node_name : Option String) : Tracer :=
  { run_id := run_id
    node_name := node_name
    traces := []
    current_trace_id := none
    id_to_trace := []
    _uuid_count := 0 }

/-- The active instance bound to the current logical execution unit
(`ThreadLocalSingleton.active_instance()` through `Tracer.context_var`, which
is not under `src/`; modelled from the spec as an explicit optional handle). -/
abbrev TracerCtx : Type := Option Tracer

/-- `Tracer.current_run_id` (tracer source lines 40-45). -/
def Tracer.current_run_id (ctx : TracerCtx) : Option String :=
  match ctx with
  | none => none
  | some t => some t.run_id

/-- `Tracer.start_tracing` (tracer source lines 30-38): when a run is already
active, log a warning and return, leaving the active instance untouched;
otherwise bind a fresh tracer.  Never throws. -/
def Tracer.start_tracing (ctx : TracerCtx) (run_id : String)
    (node_name : Option String) : TracerCtx :=
  match Tracer.current_run_id ctx with
  | some _ => ctx
  | none => some (Tracer.init run_id node_name)

/-- `Tracer._get_current_trace` (tracer source lines 79-83).  A set-but-dangling
current id would raise `KeyError` in the source; the tracer discipline never
produces one (the invariant below proves the current id is always in the map),
and the model returns `none` on that dead branch. -/
def Tracer.getCurrentTrace (t : Tracer) : Option Trace :=
  match t.current_trace_id with
  | none => none
  | some cid => dictGet t.id_to_trace cid

/-- `Tracer._push` (tracer source lines 85-101): assign a fresh id if absent,
normalize truthy inputs, clear children, default the start time, then append
the trace under the current trace (recording `parent_id`) or as a new root
(stamping `node_name`), make it current and store it in the id map. -/
def Tracer.pushT (t : Tracer) (now : Nat) (tr0 : Trace) : Tracer :=
  let newId := tr0.id.getD t._uuid_count
  let nextCount := if tr0.id.isNone then t._uuid_count + 1 else t._uuid_count
  let tr1 : Trace :=
    { tr0 with
      id := some newId
      inputs := if tr0.inputs.pyTruthy then to_serializable tr0.inputs else tr0.inputs
      children := []
      start_time := some (tr0.start_time.getD now) }
  match t.current_trace_id with
  | none =>
      let tr2 := { tr1 with node_name := t.node_name }
      { t with
        traces := t.traces ++ [newId]
        current_trace_id := some newId
        id_to_trace := dictSet t.id_to_trace newId tr2
        _uuid_count := nextCount }
  | some cid =>
      match dictGet t.id_to_trace cid with
      | none =>
          let tr2 := { tr1 with node_name := t.node_name }
          { t with
            traces := t.traces ++ [newId]
            current_trace_id := some newId
            id_to_trace := dictSet t.id_to_trace newId tr2
            _uuid_count := nextCount }
      | some parent =>
          let parent2 := { parent with children := parent.children ++ [newId] }
          let tr2 := { tr1 with parent_id := parent.id }
          { t with
            current_trace_id := some newId
            id_to_trace := dictSet (dictSet t.id_to_trace cid parent2) newId tr2
            _uuid_count := nextCount }

/-- `Tracer.push` (tracer source lines 57-62): no-op without an active
instance. -/
def Tracer.push (ctx : TracerCtx) (now : Nat) (tr : Trace) : TracerCtx :=
  match ctx with
  | none => none
  | some t => some (t.pushT now tr)

/-- `Tracer._pop` (tracer source lines 108-125): warn and return the output
unchanged when there is no current trace; otherwise wrap iterator outputs in a
`GeneratorProxy`, record the (serialized) output and the formatted error,
stamp the end time, restore the parent as current, and hand back either the
pass-through generator (for proxies) or the output itself. -/
def Tracer.popT (t : Tracer) (now : Nat) (output : Option PyVal)
    (error : Option PyError) : Tracer × Option PyVal :=
  match t.current_trace_id with
  | none => (t, output)
  | some cid =>
    match dictGet t.id_to_trace cid with
    | none => (t, output)
    | some last0 =>
      let output1 : Option PyVal :=
        match output with
        | some o => if o.isIterator then some (GeneratorProxy.wrap o) else some o
        | none => none
      let last1 :=
        match output1 with
        | some o => { last0 with output := some (to_serializable o) }
        | none => last0
      let last2 :=
        match error with
        | some e => { last1 with error := some (Tracer.format_error e) }
        | none => last1
      let last3 := { last2 with end_time := some now }
      let t2 :=
        { t with
          id_to_trace := dictSet t.id_to_trace cid last3
          current_trace_id := last3.parent_id }
      match output1 with
      | some o => if o.isGenProxy then (t2, some (generate_from_proxy o)) else (t2, some o)
      | none => (t2, none)

/-- `Tracer.pop` (tracer source lines 103-106): without an active instance,
return the output unchanged. -/
def Tracer.pop (ctx : TracerCtx) (now : Nat) (output : Option PyVal)
    (error : Option PyError) : TracerCtx × Option PyVal :=
  match ctx with
  | none => (none, output)
  | some t =>
    let p := t.popT now output error
    (some p.1, p.2)

/-! ## Serialized call trees and `end_tracing` -/

mutual

/-- A completed call-tree node as returned by `Tracer.to_json`: the trace data
together with its fully expanded children (generic structured form). -/
inductive TraceTree : Type where
  | node : Trace → TraceForest → TraceTree
  deriving DecidableEq

/-- An ordered list of completed call trees. -/
inductive TraceForest : Type where
  | nil : TraceForest
  | cons : TraceTree → TraceForest → TraceForest
  deriving DecidableEq

end

mutual

/-- Expand the trace with the given id from the id map into a full call tree.
The fuel argument bounds the recursion (the source walks the actual object
graph, which is finite and acyclic under the tracer discipline); every
reachable tracer state is given sufficient fuel by `Tracer.to_json`. -/
def buildTree (m : List (Nat × Trace)) : Nat → Nat → Option TraceTree
  | 0, _ => none
  | fuel + 1, i =>
    match dictGet m i with
    | none => none
    | some d =>
      match buildForest m fuel d.children with
      | none => none
      | some kids => some (.node d kids)

/-- Expand a list of trace ids into a forest of call trees. -/
def buildForest (m : List (Nat × Trace)) : Nat → List Nat → Option TraceForest
  | 0, _ => none
  | _ + 1, [] => some .nil
  | fuel + 1, i :: rest =>
    match buildTree m fuel i, buildForest m fuel rest with
    | some t, some f => some (.cons t f)
    | _, _ => none

end

/-- `Tracer.to_json` (tracer source lines 127-128): `serialize(self._traces)`
(`serialize` is not under `src/`; modelled from the spec as the expansion of
the root traces into the generic structured tree form).  The fuel bound is
sufficient for every state the tracer discipline can reach. -/
def Tracer.to_json (t : Tracer) : Option TraceForest :=
  buildForest t.id_to_trace (2 * t._uuid_count + t.traces.length + 2) t.traces

/-- `Tracer.end_tracing` (tracer source lines 47-55): empty list when no
instance is active; empty list, touching nothing, when a run id is given and
does not match; otherwise detach the tracer and return its serialized roots. -/
def Tracer.end_tracing (ctx : TracerCtx) (run_id : Option String) :
    TracerCtx × Option TraceForest :=
  match ctx with
  | none => (none, some .nil)
  | some t =>
    match run_id with
    | some rid =>
      if t.run_id ≠ rid then (ctx, some .nil)
      else (none, t.to_json)
    | none => (none, t.to_json)

/-! ## Operation sequences on one execution context -/

/-- One recorder operation of a traced run: a push of a trace node or a pop
with an optional output and error. -/
inductive TraceOp : Type where
  | push : Trace → TraceOp
  | pop : Option PyVal → Option PyError → TraceOp
  deriving DecidableEq

/-- Apply one operation to the active context at the given time. -/
def stepOp (ctx : TracerCtx) (now : Nat) : TraceOp → TracerCtx
  | .push tr => Tracer.push ctx now tr
  | .pop output err => (Tracer.pop ctx now output err).1

/-- Run a sequence of push/pop operations, feeding increasing times. -/
def runOps : TracerCtx → Nat → List TraceOp → TracerCtx
  | ctx, _, [] => ctx
  | ctx, now, op :: rest => runOps (stepOp ctx now op) (now + 1) rest

/-- Number of push calls in an operation sequence. -/
def countPushes : List TraceOp → Nat
  | [] => 0
  | .push _ :: rest => countPushes rest + 1
  | .pop _ _ :: rest => countPushes rest

/-- A push of a fresh trace object: no preset id and no preset parent pointer
(traces built by `_create_trace_from_function_call` are always fresh; ids are
otherwise `uuid.uuid4()` values, never colliding). -/
def freshPush (tr : Trace) : Bool :=
  tr.id.isNone && tr.parent_id.isNone

/-- Every push in the sequence pushes a fresh trace object. -/
def freshPushes (ops : List TraceOp) : Bool :=
  ops.all fun op =>
    match op with
    | .push tr => freshPush tr
    | .pop _ _ => true

/-! ## Measures on serialized call trees -/

mutual

/-- Number of nodes of a call tree (root plus all transitive children). -/
def treeSize : TraceTree → Nat
  | .node _ kids => 1 + forestSize kids

/-- Total number of nodes of a forest of call trees. -/
def forestSize : TraceForest → Nat
  | .nil => 0
  | .cons t rest => treeSize t + forestSize rest

end

mutual

/-- All trace ids of a call tree, in preorder. -/
def treeIds : TraceTree → List Nat
  | .node d kids => d.id.toList ++ forestIds kids

/-- All trace ids of a forest, in preorder. -/
def forestIds : TraceForest → List Nat
  | .nil => []
  | .cons t rest => treeIds t ++ forestIds rest

end

/-- A list of ids in strictly ascending order. -/
def strictAsc : List Nat → Bool
  | [] => true
  | [_] => true
  | a :: b :: rest => a < b && strictAsc (b :: rest)

mutual

/-- Every node of the tree lists its children in strictly ascending id order
(ids are assigned in push order, so ascending ids means push order). -/
def treeChildrenSorted : TraceTree → Bool
  | .node d kids => strictAsc d.children && forestChildrenSorted kids

/-- `treeChildrenSorted` at every tree of the forest. -/
def forestChildrenSorted : TraceForest → Bool
  | .nil => true
  | .cons t rest => treeChildrenSorted t && forestChildrenSorted rest

end

/-- Root ids of a forest, in order. -/
def forestRootIds : TraceForest → List Nat
  | .nil => []
  | .cons t rest =>
    (match t with
     | .node d _ => d.id.toList) ++ forestRootIds rest

/-! ## Resource teardown gate (spec §4.3; the executor proxy is not under `src/`) -/

/-- Modelled from the spec: the teardown gate's registry of streaming proxies
created during one init-context lifetime, as their done flags in registration
order, together with whether the dependent resource (the executor service
backing the streams) has been destroyed. -/
structure TeardownGate : Type where
  registry : List Bool
  destroyed : Bool
  deriving DecidableEq

/-- Modelled from the spec: `register(proxy)` adds a (not yet exhausted) proxy
to the outstanding set. -/
def TeardownGate.register (g : TeardownGate) : TeardownGate :=
  { g with registry := g.registry ++ [false] }

/-- Modelled from the spec: the proxy registered at the given position reaches
its done state (its underlying sequence signalled completion). -/
def TeardownGate.mark_exhausted (g : TeardownGate) (i : Nat) : TeardownGate :=
  { g with registry := g.registry.set i true }

/-- Modelled from the spec: `all_exhausted()` is true iff every registered
proxy has reached its done state. -/
def TeardownGate.all_exhausted (g : TeardownGate) : Bool :=
  g.registry.all id

/-- Modelled from the spec: `destroy_if_all_generators_exhausted` (the
executor proxy's exhaustion-gated release; the proxy class is not under
`src/`): destroy the resource only when every registered proxy is exhausted,
otherwise leave it alone (deferred). -/
def destroy_if_all_generators_exhausted (g : TeardownGate) : TeardownGate :=
  if g.all_exhausted then { g with destroyed := true } else g

/-- Teardown of the init context (`TestSubmitter.init`, submitter source lines
300-304): the `finally` block releases the executor proxy, when one is
present, only through the exhaustion-gated path. -/
def TestSubmitter.teardown_release (proxyPresent : Bool) (g : TeardownGate) :
    TeardownGate :=
  if proxyPresent then destroy_if_all_generators_exhausted g else g

/-! ## Test submitter init-context guard -/

/-- Flow language (`FlowLanguage`, referenced by the submitter). -/
inductive FlowLanguage : Type where
  | python
  | csharp
  deriving DecidableEq

/-- Exceptions the submitter raises (`UserErrorException`, `NotSupported`). -/
inductive PFException : Type where
  | userError : String → PFException
  | notSupported : String → PFException
  deriving DecidableEq

/-- Result token of the external flow-execution collaborator (spec §6: flow
execution itself is out of scope; only which external call the submitter
dispatches to is recorded). -/
inductive LineResultTok : Type where
  | execute_flow : LineResultTok
  | exec_line : LineResultTok
  deriving DecidableEq

/-- Result token of the external node-execution collaborator. -/
inductive RunInfoTok : Type where
  | load_and_exec_node : RunInfoTok
  deriving DecidableEq

/-- `TestSubmitter` state: the init-context flag and the attributes set within
the init context (submitter source lines 79-88), with out-of-scope resources
(executor proxy, flow handle, paths) as opaque handles. -/
structure TestSubmitter : Type where
  _within_init_context : Bool
  _executor_proxy : Option Nat
  _enable_stream_output : Option Bool
  _output_base : Option String
  _relative_flow_output_path : Option String
  _target_node : Option String
  _flow : Option String
  language : FlowLanguage
  deriving DecidableEq

/-- `TestSubmitter._raise_if_not_within_init_context` (submitter source lines
95-97). -/
def TestSubmitter.raise_if_not_within_init_context (s : TestSubmitter) :
    Except PFException Unit :=
  if s._within_init_context then .ok ()
  else .error (.userError "This method should be called within the init context.")

/-- The `executor_proxy` property (submitter source lines 90-93). -/
def TestSubmitter.executor_proxy (s : TestSubmitter) :
    Except PFException (Option Nat) :=
  match s.raise_if_not_within_init_context with
  | .error e => .error e
  | .ok _ => .ok s._executor_proxy

/-- The `enable_stream_output` property (submitter source lines 99-102). -/
def TestSubmitter.enable_stream_output (s : TestSubmitter) :
    Except PFException (Option Bool) :=
  match s.raise_if_not_within_init_context with
  | .error e => .error e
  | .ok _ => .ok s._enable_stream_output

/-- The `flow` property (submitter source lines 104-107). -/
def TestSubmitter.flow (s : TestSubmitter) : Except PFException (Option String) :=
  match s.raise_if_not_within_init_context with
  | .error e => .error e
  | .ok _ => .ok s._flow

/-- The `output_base` property (submitter source lines 116-119). -/
def TestSubmitter.output_base (s : TestSubmitter) :
    Except PFException (Option String) :=
  match s.raise_if_not_within_init_context with
  | .error e => .error e
  | .ok _ => .ok s._output_base

/-- The `relative_flow_output_path` property (submitter source lines 121-124). -/
def TestSubmitter.relative_flow_output_path (s : TestSubmitter) :
    Except PFException (Option String) :=
  match s.raise_if_not_within_init_context with
  | .error e => .error e
  | .ok _ => .ok s._relative_flow_output_path

/-- The `target_node` property (submitter source lines 126-129). -/
def TestSubmitter.target_node (s : TestSubmitter) :
    Except PFException (Option String) :=
  match s.raise_if_not_within_init_context with
  | .error e => .error e
  | .ok _ => .ok s._target_node

/-- Python truthiness of the optional target-node name
(`if self.target_node:` in `flow_test`). -/
def truthyOptStr : Option String → Bool
  | none => false
  | some s => !s.isEmpty

/-- `TestSubmitter.flow_test` (submitter source lines 407-478) up to the
external executor call: guard the init context, reject a configured target
node, then dispatch to the external flow executor for the flow's language. -/
def TestSubmitter.flow_test (s : TestSubmitter) : Except PFException LineResultTok :=
  match s.raise_if_not_within_init_context with
  | .error e => .error e
  | .ok _ =>
    if truthyOptStr s._target_node then
      .error (.userError "target_node is not allowed for flow test.")
    else if s.language = .python then .ok .execute_flow
    else .ok .exec_line

/-- `TestSubmitter.node_test` (submitter source lines 480-502) up to the
external executor call: guard the init context, require a target node, reject
CSharp flows, then dispatch to the external node executor. -/
def TestSubmitter.node_test (s : TestSubmitter) : Except PFException RunInfoTok :=
  match s.raise_if_not_within_init_context with
  | .error e => .error e
  | .ok _ =>
    match s._target_node with
    | none => .error (.userError "target_node is required for node test.")
    | some _ =>
      if s.language = .csharp then
        .error (.notSupported "Node test is not supported for CSharp flow for now.")
      else .ok .load_and_exec_node

/-- Exit of the init context (submitter source lines 155-158 and 306): the
variant-resolution context clears the temporary flow handles and the init flag
is dropped; the resource attributes themselves are left in place, so the
members' guard is what prevents any later access to them. -/
def TestSubmitter.init_exit (s : TestSubmitter) : TestSubmitter :=
  { s with _flow := none, _within_init_context := false }

/-! ## Ghost forest for the tracer invariant

The tracer discipline keeps `_traces`, `_id_to_trace` and the current pointer
describing one forest of trace ids.  The ghost forest records that shape; the
`DecorT`/`DecorF` predicates state that the id map decorates it consistently.
-/

mutual

/-- Ghost call tree: trace ids only. -/
inductive ITree : Type where
  | node : Nat → IForest → ITree
  deriving DecidableEq

/-- Ghost forest of call trees. -/
inductive IForest : Type where
  | nil : IForest
  | cons : ITree → IForest → IForest
  deriving DecidableEq

end

/-- Root id of a ghost tree. -/
def itRoot : ITree → Nat
  | .node i _ => i

mutual

/-- All ids of a ghost tree, in preorder. -/
def itIds : ITree → List Nat
  | .node i kids => i :: ifIds kids

/-- All ids of a ghost forest, in preorder. -/
def ifIds : IForest → List Nat
  | .nil => []
  | .cons t rest => itIds t ++ ifIds rest

end

/-- Root ids of a ghost forest, in order. -/
def ifRoots : IForest → List Nat
  | .nil => []
  | .cons t rest => itRoot t :: ifRoots rest

/-- Append a tree at the end of a ghost forest. -/
def ifSnoc : IForest → ITree → IForest
  | .nil, u => .cons u .nil
  | .cons t rest, u => .cons t (ifSnoc rest u)

mutual

/-- Append a fresh leaf with id `n` at the end of the children of the node
with id `c` (the ghost image of `parent_trace.children.append(trace)`). -/
def itAddLeaf (c n : Nat) : ITree → ITree
  | .node i kids =>
      if i = c then .node i (ifSnoc kids (.node n .nil))
      else .node i (ifAddLeaf c n kids)

/-- `itAddLeaf` at every tree of the forest. -/
def ifAddLeaf (c n : Nat) : IForest → IForest
  | .nil => .nil
  | .cons t rest => .cons (itAddLeaf c n t) (ifAddLeaf c n rest)

end

mutual

/-- Fuel needed by `buildTree` to expand this ghost tree. -/
def itNeed : ITree → Nat
  | .node _ kids => 1 + ifNeed kids

/-- Fuel needed by `buildForest` to expand this ghost forest. -/
def ifNeed : IForest → Nat
  | .nil => 1
  | .cons t rest => 1 + max (itNeed t) (ifNeed rest)

end

mutual

/-- Every ghost node lists its children in strictly ascending id order. -/
def itOrd : ITree → Bool
  | .node _ kids => strictAsc (ifRoots kids) && ifOrd kids

/-- `itOrd` at every tree of the forest. -/
def ifOrd : IForest → Bool
  | .nil => true
  | .cons t rest => itOrd t && ifOrd rest

end

mutual

/-- The id map decorates the ghost tree consistently: the node's trace is in
the map, carries its own id, lists exactly the ghost children ids in order,
points back to the correct parent, and the subtrees are decorated in turn. -/
inductive DecorT (m : List (Nat × Trace)) : Option Nat → ITree → Prop where
  | node : ∀ {par : Option Nat} {i : Nat} {kids : IForest} (d : Trace),
      dictGet m i = some d →
      d.id = some i →
      d.children = ifRoots kids →
      d.parent_id = par →
      DecorF m (some i) kids →
      DecorT m par (.node i kids)

/-- The id map decorates every tree of the ghost forest. -/
inductive DecorF (m : List (Nat × Trace)) : Option Nat → IForest → Prop where
  | nil : ∀ {par : Option Nat}, DecorF m par .nil
  | cons : ∀ {par : Option Nat} {t : ITree} {rest : IForest},
      DecorT m par t → DecorF m par rest → DecorF m par (.cons t rest)

end

/-- The tracer invariant: the tracer state describes the ghost forest `F` —
roots match, the map decorates `F`, ids are distinct and below the uuid
supply, roots and children are in ascending (push) order, and the current
pointer is absent or a live id. -/
structure TracerInv (t : Tracer) (F : IForest) : Prop where
  roots : t.traces = ifRoots F
  decor : DecorF t.id_to_trace none F
  nodup : (ifIds F).Nodup
  bounded : ∀ i ∈ ifIds F, i < t._uuid_count
  rootsAsc : strictAsc (ifRoots F) = true
  ord : ifOrd F = true
  current : t.current_trace_id = none ∨
    ∃ c, t.current_trace_id = some c ∧ c ∈ ifIds F

/-- One tracer step on a bound instance (`stepOp` specialized to an active
context; `runOps (some t) = some (runT t)`). -/
def stepT (t : Tracer) (now : Nat) : TraceOp → Tracer
  | .push tr => t.pushT now tr
  | .pop output err => (t.popT now output err).1

/-- Run a sequence of operations on a bound instance. -/
def runT : Tracer → Nat → List TraceOp → Tracer
  | t, _, [] => t
  | t, now, op :: rest => runT (stepT t now op) (now + 1) rest

/-- The user error raised by the init-context guard. -/
def initContextError : PFException :=
  .userError "This method should be called within the init context."

/-- A sample fresh trace node (concrete instantiations of the theorems). -/
def sampleTrace : Trace :=
  { id := none
    name := "tool_a"
    type := .tool
    inputs := .dict .nil
    output := none
    start_time := none
    end_time := none
    error := none
    children := []
    parent_id := none
    node_name := none }

/-- A sample tracer state holding one root trace that is current. -/
def sampleTracer : Tracer :=
  { run_id := "run1"
    node_name := some "node1"
    traces := [0]
    current_trace_id := some 0
    id_to_trace :=
      [(0, { sampleTrace with id := some 0, start_time := some 0, node_name := some "node1" })]
    _uuid_count := 1 }

/-- A sample submitter state outside any init context. -/
def sampleSubmitter : TestSubmitter :=
  { _within_init_context := false
    _executor_proxy := some 7
    _enable_stream_output := some true
    _output_base := some "out"
    _relative_flow_output_path := some "sub"
    _target_node := some "node1"
    _flow := some "flow1"
    language := .python }

/-- The spec's nesting scenario as an operation sequence: push "flow", push
"tool_a", pop with output 1, push "tool_b", pop with an error, pop with
output 2. -/
def sampleOps : List TraceOp :=
  [.push { sampleTrace with name := "flow" },
   .push { sampleTrace with name := "tool_a" },
   .pop (some (.int 1)) none,
   .push { sampleTrace with name := "tool_b" },
   .pop none (some { message := "boom", qualname := "ValueError" }),
   .pop (some (.int 2)) none]

/-- Packed description of the map update a child push performs: the parent
data `pd` stored at the current id `c` is replaced by `pd2` (same trace, with
the fresh id `n` appended to its children) and the freshly pushed trace `tr2`
is stored at `n`. -/
structure AddLeafUpd (m : List (Nat × Trace)) (c n : Nat) (pd pd2 tr2 : Trace) :
    Prop where
  hgc : dictGet m c = some pd
  hcn : c ≠ n
  pd2_id : pd2.id = pd.id
  pd2_children : pd2.children = pd.children ++ [n]
  pd2_parent : pd2.parent_id = pd.parent_id
  tr2_id : tr2.id = some n
  tr2_children : tr2.children = []
  tr2_parent : tr2.parent_id = pd.id

/-! ## Serialization lemmas and claims C6, C7 -/

theorem trySerialize_eq_none {v : PyVal} (h : jsonEncodable v = false) :
    trySerialize v = none := by
  simp [trySerialize, h]

theorem trySerializeOrStr_of_not_encodable {v : PyVal}
    (h : jsonEncodable v = false) : trySerializeOrStr v = .str (pyStr v) := by
  simp [trySerializeOrStr, trySerialize, h]

theorem to_serializable_fallback {v : PyVal} (hr : reachesFallback v = true)
    (h : jsonEncodable v = false) : to_serializable v = .str (pyStr v) := by
  cases v with
  | str s => exact trySerializeOrStr_of_not_encodable h
  | int n => exact trySerializeOrStr_of_not_encodable h
  | obj rep enc => exact trySerializeOrStr_of_not_encodable h
  | iter xs => exact trySerializeOrStr_of_not_encodable h
  | genProxy b r => simp [reachesFallback] at hr
  | proxyStream b r => exact trySerializeOrStr_of_not_encodable h
  | dict es =>
      have hk : entriesStrKeys es = false := by
        simpa [reachesFallback] using hr
      simpa [to_serializable, hk] using trySerializeOrStr_of_not_encodable h

theorem to_serializable_str (s : String) : to_serializable (.str s) = .str s := by
  simp [to_serializable, trySerializeOrStr, trySerialize, jsonEncodable]

/-- C6: `to_serializable` never raises (it is a total function here, as in the
source, where every exception is caught): string-keyed mappings are recursed
key-by-key, a streaming-proxy value is returned unchanged (never consumed),
and any other value whose structured serialization or interchange-format
encoding fails is returned as its textual representation. -/
theorem to_serializable_cases :
    (∀ es : PyEntries, entriesStrKeys es = true →
      to_serializable (.dict es) = .dict (to_serializableEntries es)) ∧
    (∀ b r : PyList, to_serializable (.genProxy b r) = .genProxy b r) ∧
    (∀ v : PyVal, reachesFallback v = true → jsonEncodable v = false →
      to_serializable v = .str (pyStr v)) := by
  refine ⟨fun es h => ?_, fun b r => rfl, fun v hr h => to_serializable_fallback hr h⟩
  simp [to_serializable, h]

theorem to_serializable_cases_witness :
    to_serializable (.dict (.cons (.str "a") (.iter .nil) .nil)) =
      .dict (.cons (.str "a") (.str "iterator object") .nil) ∧
    to_serializable (.genProxy .nil .nil) = .genProxy .nil .nil ∧
    to_serializable (.obj "bad" false) = .str "bad" := by
  refine ⟨?_, to_serializable_cases.2.1 .nil .nil, ?_⟩
  · rw [to_serializable_cases.1 (.cons (.str "a") (.iter .nil) .nil) (by decide)]
    decide
  · rw [to_serializable_cases.2.2 (.obj "bad" false) (by decide) (by decide)]
    rfl

/-- C7 counterexample: the string-keyed mapping whose value is unserializable
fails the structured serialization as a whole, yet `to_serializable` returns a
mapping (with the value replaced by its textual form), not a string. -/
theorem to_serializable_failing_not_string :
    trySerialize (.dict (.cons (.str "a") (.obj "unserializable" false) .nil)) = none ∧
    (to_serializable (.dict (.cons (.str "a") (.obj "unserializable" false) .nil))).isStr
      = false := by
  constructor
  · decide
  · decide

/-- C7 amended: for every value that fails structured serialization and
actually reaches the serializer's fallback (it is neither a string-keyed
mapping, which is recursed instead, nor a streaming proxy, which is passed
through), `to_serializable` yields a string, and a second application returns
that string unchanged. -/
theorem to_serializable_fallback_idem (v : PyVal)
    (hf : trySerialize v = none) (hr : reachesFallback v = true) :
    (to_serializable v).isStr = true ∧
    to_serializable (to_serializable v) = to_serializable v := by
  have henc : jsonEncodable v = false := by
    by_contra hne
    have : jsonEncodable v = true := by
      cases h : jsonEncodable v
      · exact absurd h hne
      · rfl
    simp [trySerialize, this] at hf
  have h := to_serializable_fallback hr henc
  rw [h]
  exact ⟨rfl, to_serializable_str _⟩

theorem to_serializable_fallback_idem_witness :
    (to_serializable (.obj "x" false)).isStr = true ∧
    to_serializable (to_serializable (.obj "x" false)) =
      to_serializable (.obj "x" false) :=
  to_serializable_fallback_idem (.obj "x" false) (by decide) (by decide)

/-! ## Claim C5: second start is rejected -/

/-- C5: calling `start_tracing` while a context is already active leaves the
original context active and completely unchanged (the source logs a warning
and returns; the model is total, so nothing is thrown), the bound run id stays
the original one, and every subsequent push behaves exactly as it would have
on the original context. -/
theorem start_tracing_second_noop :
    ∀ (t : Tracer) (rid2 : String) (nn2 : Option String),
      Tracer.start_tracing (some t) rid2 nn2 = some t ∧
      Tracer.current_run_id (Tracer.start_tracing (some t) rid2 nn2) = some t.run_id ∧
      (∀ (now : Nat) (tr : Trace),
        Tracer.push (Tracer.start_tracing (some t) rid2 nn2) now tr =
          Tracer.push (some t) now tr) :=
  fun _ _ _ => ⟨rfl, rfl, fun _ _ => rfl⟩

/-! ## Claim C4: `end_tracing` guards -/

/-- C4: `end_tracing` returns an empty forest when no context is active; with
a mismatched run id it returns an empty forest and leaves the active context
fully attached and unchanged, so that a later `end_tracing` with no id still
returns the real serialized tree; with no id or the matching id it detaches
the context and returns the serialized root traces. -/
theorem end_tracing_spec :
    ∀ (t : Tracer) (rid : String) (anyRid : Option String),
      Tracer.end_tracing none anyRid = (none, some .nil) ∧
      (rid ≠ t.run_id →
        Tracer.end_tracing (some t) (some rid) = (some t, some .nil) ∧
        Tracer.end_tracing (some t) none = (none, t.to_json)) ∧
      Tracer.end_tracing (some t) (some t.run_id) = (none, t.to_json) ∧
      Tracer.end_tracing (some t) none = (none, t.to_json) := by
  intro t rid anyRid
  refine ⟨by cases anyRid <;> rfl, fun hne => ⟨?_, rfl⟩, ?_, rfl⟩
  · have h : t.run_id ≠ rid := fun h => hne h.symm
    simp [Tracer.end_tracing, h]
  · simp [Tracer.end_tracing]

theorem end_tracing_spec_witness :
    Tracer.end_tracing (some (Tracer.init "a" none)) (some "b") =
      (some (Tracer.init "a" none), some .nil) ∧
    Tracer.end_tracing (some (Tracer.init "a" none)) none =
      (none, (Tracer.init "a" none).to_json) :=
  (end_tracing_spec (Tracer.init "a" none) "b" none).2.1 (by decide)

/-! ## Claim C3: exhaustion-gated teardown -/

/-- C3: on teardown of the init context the dependent resource is released
only through the exhaustion-gated path, which never destroys it while some
registered proxy is unexhausted; concretely, after registering two proxies
and exhausting only the first, a release request does not destroy the
resource, and once the second is exhausted a subsequent release succeeds. -/
theorem teardown_gate_spec :
    (∀ g : TeardownGate, g.all_exhausted = false →
      (TestSubmitter.teardown_release true g).destroyed = g.destroyed) ∧
    ((TestSubmitter.teardown_release true
        ((((TeardownGate.mk [] false).register).register).mark_exhausted 0)).destroyed
          = false ∧
     (TestSubmitter.teardown_release true
        (((((TeardownGate.mk [] false).register).register).mark_exhausted 0).mark_exhausted
          1)).destroyed = true) := by
  refine ⟨fun g h => ?_, by decide, by decide⟩
  simp [TestSubmitter.teardown_release, destroy_if_all_generators_exhausted, h]

theorem teardown_gate_spec_witness :
    (TestSubmitter.teardown_release true (TeardownGate.mk [false] false)).destroyed =
      (TeardownGate.mk [false] false).destroyed :=
  teardown_gate_spec.1 (TeardownGate.mk [false] false) (by decide)

/-! ## Claim C10: init-context guard on submitter members -/

/-- C10: every init-context-dependent member of `TestSubmitter` (the six
guarded properties and the two test methods) raises the user error when
invoked outside an active init context, and exiting the init context drops
the flag, so no member can hand out a resource left over from a previous
context — every access after exit errors instead. -/
theorem submitter_members_guarded :
    (∀ s : TestSubmitter, s._within_init_context = false →
      s.executor_proxy = .error initContextError ∧
      s.enable_stream_output = .error initContextError ∧
      s.flow = .error initContextError ∧
      s.output_base = .error initContextError ∧
      s.relative_flow_output_path = .error initContextError ∧
      s.target_node = .error initContextError ∧
      s.flow_test = .error initContextError ∧
      s.node_test = .error initContextError) ∧
    (∀ s : TestSubmitter,
      (s.init_exit)._within_init_context = false ∧
      (s.init_exit).executor_proxy = .error initContextError) := by
  constructor
  · intro s h
    refine ⟨?_, ?_, ?_, ?_, ?_, ?_, ?_, ?_⟩ <;>
      simp [TestSubmitter.executor_proxy, TestSubmitter.enable_stream_output,
        TestSubmitter.flow, TestSubmitter.output_base,
        TestSubmitter.relative_flow_output_path, TestSubmitter.target_node,
        TestSubmitter.flow_test, TestSubmitter.node_test,
        TestSubmitter.raise_if_not_within_init_context, h, initContextError]
  · intro s
    refine ⟨rfl, ?_⟩
    simp [TestSubmitter.executor_proxy,
      TestSubmitter.raise_if_not_within_init_context, TestSubmitter.init_exit,
      initContextError]

theorem submitter_members_guarded_witness :
    sampleSubmitter.executor_proxy = .error initContextError ∧
    sampleSubmitter.enable_stream_output = .error initContextError ∧
    sampleSubmitter.flow = .error initContextError ∧
    sampleSubmitter.output_base = .error initContextError ∧
    sampleSubmitter.relative_flow_output_path = .error initContextError ∧
    sampleSubmitter.target_node = .error initContextError ∧
    sampleSubmitter.flow_test = .error initContextError ∧
    sampleSubmitter.node_test = .error initContextError :=
  submitter_members_guarded.1 sampleSubmitter (by decide)

/-! ## Dict helper lemmas -/

theorem dictGet_set_self (m : List (Nat × Trace)) (k : Nat) (v : Trace) :
    dictGet (dictSet m k v) k = some v := by
  simp [dictGet, dictSet]

theorem dictGet_set_ne (m : List (Nat × Trace)) (k j : Nat) (v : Trace)
    (h : j ≠ k) : dictGet (dictSet m k v) j = dictGet m j := by
  simp [dictGet, dictSet, h]

/-! ## Claim C2: streaming outputs are proxied at pop time -/

/-- C2: popping with a lazy-sequence (iterator) output wraps it in a streaming
proxy, stores the proxy — whose buffer is what later serializes — as the
current trace's `output`, and returns the pass-through lazy sequence backed by
the proxy, a different object from the original output; popping any
non-iterator output returns the output value itself. -/
theorem pop_streaming_output (t : Tracer) (cid : Nat) (last0 : Trace)
    (now : Nat) (err : Option PyError)
    (hcur : t.current_trace_id = some cid)
    (hget : dictGet t.id_to_trace cid = some last0) :
    (∀ xs : PyList,
      (t.popT now (some (.iter xs)) err).2 = some (.proxyStream .nil xs) ∧
      (t.popT now (some (.iter xs)) err).2 ≠ some (.iter xs) ∧
      ∃ last3 : Trace,
        dictGet (t.popT now (some (.iter xs)) err).1.id_to_trace cid = some last3 ∧
        last3.output = some (.genProxy .nil xs)) ∧
    (∀ o : PyVal, o.isIterator = false →
      (t.popT now (some o) err).2 = some o) := by
  constructor
  · intro xs
    refine ⟨?_, ?_, ?_⟩
    · cases err <;>
        simp [Tracer.popT, hcur, hget, PyVal.isIterator, GeneratorProxy.wrap,
          PyVal.isGenProxy, generate_from_proxy]
    · cases err <;>
        simp [Tracer.popT, hcur, hget, PyVal.isIterator, GeneratorProxy.wrap,
          PyVal.isGenProxy, generate_from_proxy]
    · cases err <;>
        simp [Tracer.popT, hcur, hget, PyVal.isIterator, GeneratorProxy.wrap,
          PyVal.isGenProxy, dictGet_set_self, to_serializable]
  · intro o ho
    have hgp : o.isGenProxy = false := by
      cases o <;> simp_all [PyVal.isIterator, PyVal.isGenProxy]
    cases err <;>
      simp [Tracer.popT, hcur, hget, ho, hgp]

theorem pop_streaming_output_witness :
    (sampleTracer.popT 5 (some (.iter (.cons (.str "tok") .nil))) none).2 =
      some (.proxyStream .nil (.cons (.str "tok") .nil)) ∧
    (sampleTracer.popT 5 (some (.int 3)) none).2 = some (.int 3) :=
  ⟨((pop_streaming_output sampleTracer 0 _ 5 none rfl rfl).1
      (.cons (.str "tok") .nil)).1,
   (pop_streaming_output sampleTracer 0 _ 5 none rfl rfl).2 (.int 3) (by decide)⟩

/-! ## Claim C8: pop error handling and bookkeeping -/

theorem wrap_isGenProxy (o : PyVal) : (GeneratorProxy.wrap o).isGenProxy = true := by
  cases o <;> rfl

theorem fst_ite_pair {α β : Type} (c : Prop) [Decidable c] (a : α) (x y : β) :
    (if c then (a, x) else (a, y)).1 = a := by
  by_cases h : c <;> simp [h]

/-- C8: `pop` with no active context returns the output unchanged and touches
nothing; with an active context but no current trace it warns and returns the
output unchanged; otherwise it records the formatted error (message and type
name) when one is given, stamps the end time, and restores the popped trace's
parent (or none, for a root) as the current trace. -/
theorem pop_spec (t : Tracer) (now : Nat) (output : Option PyVal)
    (err : Option PyError) :
    Tracer.pop none now output err = (none, output) ∧
    (t.getCurrentTrace = none → t.popT now output err = (t, output)) ∧
    (∀ (cid : Nat) (last0 : Trace), t.current_trace_id = some cid →
      dictGet t.id_to_trace cid = some last0 →
      ∃ last3 : Trace,
        dictGet (t.popT now output err).1.id_to_trace cid = some last3 ∧
        last3.end_time = some now ∧
        (∀ e : PyError, err = some e →
          last3.error = some (.dict (.cons (.str "message") (.str e.message)
            (.cons (.str "type") (.str e.qualname) .nil)))) ∧
        (t.popT now output err).1.current_trace_id = last0.parent_id) := by
  refine ⟨rfl, ?_, ?_⟩
  · intro h
    cases hc : t.current_trace_id with
    | none => simp [Tracer.popT, hc]
    | some cid =>
        have hd : dictGet t.id_to_trace cid = none := by
          simpa [Tracer.getCurrentTrace, hc] using h
        simp [Tracer.popT, hc, hd]
  · intro cid last0 hcur hget
    cases output with
    | none =>
        cases err with
        | none =>
            have heq : t.popT now none none =
                ({ t with
                    id_to_trace :=
                      dictSet t.id_to_trace cid { last0 with end_time := some now }
                    current_trace_id := last0.parent_id }, none) := by
              simp [Tracer.popT, hcur, hget]
            rw [heq]
            exact ⟨_, dictGet_set_self _ _ _, rfl, fun e he => Option.noConfusion he, rfl⟩
        | some e0 =>
            have heq : t.popT now none (some e0) =
                ({ t with
                    id_to_trace :=
                      dictSet t.id_to_trace cid
                        { last0 with
                            error := some (Tracer.format_error e0)
                            end_time := some now }
                    current_trace_id := last0.parent_id }, none) := by
              simp [Tracer.popT, hcur, hget]
            rw [heq]
            refine ⟨_, dictGet_set_self _ _ _, rfl, fun e he => ?_, rfl⟩
            cases he
            rfl
    | some o =>
        by_cases hio : o.isIterator = true
        · cases err with
          | none =>
              have heq : t.popT now (some o) none =
                  ({ t with
                      id_to_trace :=
                        dictSet t.id_to_trace cid
                          { last0 with
                              output :=
                                some (to_serializable (GeneratorProxy.wrap o))
                              end_time := some now }
                      current_trace_id := last0.parent_id },
                    some (generate_from_proxy (GeneratorProxy.wrap o))) := by
                simp [Tracer.popT, hcur, hget, hio, wrap_isGenProxy]
              rw [heq]
              exact ⟨_, dictGet_set_self _ _ _, rfl, fun e he => Option.noConfusion he, rfl⟩
          | some e0 =>
              have heq : t.popT now (some o) (some e0) =
                  ({ t with
                      id_to_trace :=
                        dictSet t.id_to_trace cid
                          { last0 with
                              output :=
                                some (to_serializable (GeneratorProxy.wrap o))
                              error := some (Tracer.format_error e0)
                              end_time := some now }
                      current_trace_id := last0.parent_id },
                    some (generate_from_proxy (GeneratorProxy.wrap o))) := by
                simp [Tracer.popT, hcur, hget, hio, wrap_isGenProxy]
              rw [heq]
              refine ⟨_, dictGet_set_self _ _ _, rfl, fun e he => ?_, rfl⟩
              cases he
              rfl
        · have hio2 : o.isIterator = false := by
            cases h2 : o.isIterator
            · rfl
            · exact absurd h2 hio
          have hgp : o.isGenProxy = false := by
            cases o <;> simp_all [PyVal.isIterator, PyVal.isGenProxy]
          cases err with
          | none =>
              have heq : t.popT now (some o) none =
                  ({ t with
                      id_to_trace :=
                        dictSet t.id_to_trace cid
                          { last0 with
                              output := some (to_serializable o)
                              end_time := some now }
                      current_trace_id := last0.parent_id }, some o) := by
                simp [Tracer.popT, hcur, hget, hio2, hgp]
              rw [heq]
              exact ⟨_, dictGet_set_self _ _ _, rfl, fun e he => Option.noConfusion he, rfl⟩
          | some e0 =>
              have heq : t.popT now (some o) (some e0) =
                  ({ t with
                      id_to_trace :=
                        dictSet t.id_to_trace cid
                          { last0 with
                              output := some (to_serializable o)
                              error := some (Tracer.format_error e0)
                              end_time := some now }
                      current_trace_id := last0.parent_id }, some o) := by
                simp [Tracer.popT, hcur, hget, hio2, hgp]
              rw [heq]
              refine ⟨_, dictGet_set_self _ _ _, rfl, fun e he => ?_, rfl⟩
              cases he
              rfl

theorem pop_spec_witness :
    Tracer.pop none 3 (some (.int 1)) none = (none, some (.int 1)) :=
  (pop_spec sampleTracer 3 (some (.int 1)) none).1

/-! ## Claim C9: push bookkeeping -/

/-- C9: pushing on an active context assigns a fresh id when the trace has
none (and keeps a preset one), normalizes truthy inputs through the
serialization normalizer, defaults the start time, clears the children, and
either appends the trace as the current trace's child (recording the parent
id) or appends it to the root list stamped with the context's node name; the
pushed trace becomes current.  Pushing with no active context is a no-op.
The freshness hypothesis models `uuid.uuid4()` never colliding. -/
theorem push_spec (t : Tracer) (now : Nat) (tr : Trace)
    (hfresh : dictGet t.id_to_trace (tr.id.getD t._uuid_count) = none) :
    Tracer.push none now tr = none ∧
    (t.getCurrentTrace = none →
      ∃ tr2 : Trace,
        dictGet (t.pushT now tr).id_to_trace (tr.id.getD t._uuid_count) = some tr2 ∧
        tr2.id = some (tr.id.getD t._uuid_count) ∧
        tr2.inputs =
          (if tr.inputs.pyTruthy then to_serializable tr.inputs else tr.inputs) ∧
        tr2.children = [] ∧
        tr2.start_time = some (tr.start_time.getD now) ∧
        tr2.node_name = t.node_name ∧
        tr2.parent_id = tr.parent_id ∧
        (t.pushT now tr).traces = t.traces ++ [tr.id.getD t._uuid_count] ∧
        (t.pushT now tr).current_trace_id = some (tr.id.getD t._uuid_count)) ∧
    (∀ (cid : Nat) (parent : Trace), t.current_trace_id = some cid →
      dictGet t.id_to_trace cid = some parent →
      ∃ tr2 : Trace,
        dictGet (t.pushT now tr).id_to_trace (tr.id.getD t._uuid_count) = some tr2 ∧
        tr2.id = some (tr.id.getD t._uuid_count) ∧
        tr2.inputs =
          (if tr.inputs.pyTruthy then to_serializable tr.inputs else tr.inputs) ∧
        tr2.children = [] ∧
        tr2.start_time = some (tr.start_time.getD now) ∧
        tr2.parent_id = parent.id ∧
        (t.pushT now tr).traces = t.traces ∧
        (t.pushT now tr).current_trace_id = some (tr.id.getD t._uuid_count) ∧
        ∃ parent2 : Trace,
          dictGet (t.pushT now tr).id_to_trace cid = some parent2 ∧
          parent2.children = parent.children ++ [tr.id.getD t._uuid_count]) := by
  refine ⟨rfl, ?_, ?_⟩
  · intro h
    have heq : t.pushT now tr =
        { t with
            traces := t.traces ++ [tr.id.getD t._uuid_count]
            current_trace_id := some (tr.id.getD t._uuid_count)
            id_to_trace :=
              dictSet t.id_to_trace (tr.id.getD t._uuid_count)
                { tr with
                    id := some (tr.id.getD t._uuid_count)
                    inputs :=
                      if tr.inputs.pyTruthy then to_serializable tr.inputs
                      else tr.inputs
                    children := []
                    start_time := some (tr.start_time.getD now)
                    node_name := t.node_name }
            _uuid_count :=
              if tr.id.isNone then t._uuid_count + 1 else t._uuid_count } := by
      cases hc : t.current_trace_id with
      | none => simp [Tracer.pushT, hc]
      | some cid =>
          have hd : dictGet t.id_to_trace cid = none := by
            simpa [Tracer.getCurrentTrace, hc] using h
          simp [Tracer.pushT, hc, hd]
    rw [heq]
    exact ⟨_, dictGet_set_self _ _ _, rfl, rfl, rfl, rfl, rfl, rfl, rfl, rfl⟩
  · intro cid parent hcur hget
    have hne : cid ≠ tr.id.getD t._uuid_count := by
      intro hcontra
      rw [hcontra, hfresh] at hget
      exact Option.noConfusion hget
    have heq : t.pushT now tr =
        { t with
            current_trace_id := some (tr.id.getD t._uuid_count)
            id_to_trace :=
              dictSet
                (dictSet t.id_to_trace cid
                  { parent with
                      children := parent.children ++ [tr.id.getD t._uuid_count] })
                (tr.id.getD t._uuid_count)
                { tr with
                    id := some (tr.id.getD t._uuid_count)
                    inputs :=
                      if tr.inputs.pyTruthy then to_serializable tr.inputs
                      else tr.inputs
                    children := []
                    start_time := some (tr.start_time.getD now)
                    parent_id := parent.id }
            _uuid_count :=
              if tr.id.isNone then t._uuid_count + 1 else t._uuid_count } := by
      simp [Tracer.pushT, hcur, hget]
    rw [heq]
    refine ⟨_, dictGet_set_self _ _ _, rfl, rfl, rfl, rfl, rfl, rfl, rfl, ?_⟩
    refine ⟨{ parent with
        children := parent.children ++ [tr.id.getD t._uuid_count] }, ?_, rfl⟩
    rw [dictGet_set_ne _ _ _ _ hne, dictGet_set_self]

theorem push_spec_witness :
    Tracer.push none 0 sampleTrace = none :=
  (push_spec (Tracer.init "run1" none) 0 sampleTrace (by decide)).1

/-! ## Ghost-forest lemmas -/

theorem strictAsc_snoc : ∀ (xs : List Nat) (n : Nat),
    strictAsc xs = true → (∀ x ∈ xs, x < n) → strictAsc (xs ++ [n]) = true
  | [], n, _, _ => rfl
  | [a], n, _, hlt => by simp [strictAsc, hlt a (by simp)]
  | a :: b :: rest, n, h, hlt => by
      have h1 : a < b := by
        simp [strictAsc] at h
        exact h.1
      have h2 : strictAsc (b :: rest) = true := by
        simp [strictAsc] at h
        exact h.2
      have ih := strictAsc_snoc (b :: rest) n h2 (fun x hx => hlt x (by simp [hx]))
      simp only [List.cons_append] at ih ⊢
      simp [strictAsc, h1]
      simpa [strictAsc] using ih

theorem itIds_length_pos : ∀ t : ITree, 0 < (itIds t).length
  | .node i kids => by simp [itIds]

theorem itRoot_mem_itIds : ∀ t : ITree, itRoot t ∈ itIds t
  | .node i kids => by simp [itRoot, itIds]

theorem ifRoots_subset_ifIds : ∀ (F : IForest), ∀ x ∈ ifRoots F, x ∈ ifIds F
  | .nil, x, hx => by simp [ifRoots] at hx
  | .cons t rest, x, hx => by
      simp only [ifRoots, List.mem_cons] at hx
      rcases hx with h | h
      · subst h
        simp only [ifIds, List.mem_append]
        exact .inl (itRoot_mem_itIds t)
      · simp only [ifIds, List.mem_append]
        exact .inr (ifRoots_subset_ifIds rest x h)

theorem ifRoots_snoc : ∀ (F : IForest) (u : ITree),
    ifRoots (ifSnoc F u) = ifRoots F ++ [itRoot u]
  | .nil, u => rfl
  | .cons t rest, u => by simp [ifSnoc, ifRoots, ifRoots_snoc rest u]

theorem ifIds_snoc : ∀ (F : IForest) (u : ITree),
    ifIds (ifSnoc F u) = ifIds F ++ itIds u
  | .nil, u => by simp [ifSnoc, ifIds]
  | .cons t rest, u => by simp [ifSnoc, ifIds, ifIds_snoc rest u]

theorem ifOrd_snoc : ∀ (F : IForest) (u : ITree),
    ifOrd F = true → itOrd u = true → ifOrd (ifSnoc F u) = true
  | .nil, u, _, hu => by simp [ifSnoc, ifOrd, hu]
  | .cons t rest, u, h, hu => by
      simp only [ifOrd, Bool.and_eq_true] at h
      simp [ifSnoc, ifOrd, h.1, ifOrd_snoc rest u h.2 hu]

theorem decorF_snoc {m : List (Nat × Trace)} {par : Option Nat} :
    ∀ (F : IForest) (u : ITree), DecorF m par F → DecorT m par u →
      DecorF m par (ifSnoc F u)
  | .nil, u, _, hu => .cons hu .nil
  | .cons t rest, u, h, hu => by
      cases h with
      | cons ht hrest => exact .cons ht (decorF_snoc rest u hrest hu)

mutual

theorem decorT_mono : ∀ (t : ITree) (m m2 : List (Nat × Trace)) (par : Option Nat),
    DecorT m par t → (∀ i ∈ itIds t, dictGet m2 i = dictGet m i) → DecorT m2 par t
  | .node i kids, m, m2, par, h, hag => by
      cases h with
      | node d hget hid hch hp hkids =>
          refine DecorT.node d ?_ hid hch hp ?_
          · rw [hag i (by simp [itIds])]
            exact hget
          · exact decorF_mono kids m m2 (some i) hkids
              (fun j hj => hag j (by simp [itIds, hj]))

theorem decorF_mono : ∀ (F : IForest) (m m2 : List (Nat × Trace)) (par : Option Nat),
    DecorF m par F → (∀ i ∈ ifIds F, dictGet m2 i = dictGet m i) → DecorF m2 par F
  | .nil, _, _, par, _, _ => .nil
  | .cons t rest, m, m2, par, h, hag => by
      cases h with
      | cons ht hrest =>
          exact .cons
            (decorT_mono t m m2 par ht (fun j hj => hag j (by simp [ifIds, hj])))
            (decorF_mono rest m m2 par hrest (fun j hj => hag j (by simp [ifIds, hj])))

end

mutual

theorem decorT_lookup : ∀ (t : ITree) (m : List (Nat × Trace)) (par : Option Nat)
    (c : Nat), DecorT m par t → c ∈ itIds t →
    ∃ d, dictGet m c = some d ∧ d.id = some c ∧
      (d.parent_id = par ∨ ∃ p, d.parent_id = some p ∧ p ∈ itIds t)
  | .node i kids, m, par, c, h, hc => by
      cases h with
      | node d hget hid hch hp hkids =>
          have hc2 : c = i ∨ c ∈ ifIds kids := by simpa [itIds] using hc
          rcases hc2 with rfl | hck
          · exact ⟨d, hget, hid, .inl hp⟩
          · obtain ⟨d2, hg2, hid2, hrest⟩ := decorF_lookup kids m (some i) c hkids hck
            refine ⟨d2, hg2, hid2, .inr ?_⟩
            rcases hrest with hpar | ⟨p, hp2, hpmem⟩
            · exact ⟨i, hpar, by simp [itIds]⟩
            · exact ⟨p, hp2, by simp [itIds, hpmem]⟩

theorem decorF_lookup : ∀ (F : IForest) (m : List (Nat × Trace)) (par : Option Nat)
    (c : Nat), DecorF m par F → c ∈ ifIds F →
    ∃ d, dictGet m c = some d ∧ d.id = some c ∧
      (d.parent_id = par ∨ ∃ p, d.parent_id = some p ∧ p ∈ ifIds F)
  | .nil, m, par, c, _, hc => by simp [ifIds] at hc
  | .cons t rest, m, par, c, h, hc => by
      cases h with
      | cons ht hrest =>
          have hc2 : c ∈ itIds t ∨ c ∈ ifIds rest := by simpa [ifIds] using hc
          rcases hc2 with hct | hcr
          · obtain ⟨d, hg, hid, hpar⟩ := decorT_lookup t m par c ht hct
            refine ⟨d, hg, hid, ?_⟩
            rcases hpar with hp | ⟨p, hp2, hpmem⟩
            · exact .inl hp
            · exact .inr ⟨p, hp2, by simp [ifIds, hpmem]⟩
          · obtain ⟨d, hg, hid, hpar⟩ := decorF_lookup rest m par c hrest hcr
            refine ⟨d, hg, hid, ?_⟩
            rcases hpar with hp | ⟨p, hp2, hpmem⟩
            · exact .inl hp
            · exact .inr ⟨p, hp2, by simp [ifIds, hpmem]⟩

end

mutual

theorem decorT_update : ∀ (t : ITree) (m : List (Nat × Trace)) (par : Option Nat)
    (c : Nat) (d d2 : Trace), DecorT m par t →
    dictGet m c = some d →
    d2.id = d.id → d2.children = d.children → d2.parent_id = d.parent_id →
    DecorT (dictSet m c d2) par t
  | .node i kids, m, par, c, d, d2, h, hg, h1, h2, h3 => by
      cases h with
      | node d0 hget hid hch hp hkids =>
          by_cases hic : i = c
          · subst hic
            have hd0 : d0 = d := by
              rw [hget] at hg
              exact Option.some.inj hg
            subst hd0
            refine DecorT.node d2 (dictGet_set_self _ _ _) ?_ ?_ ?_ ?_
            · rw [h1]; exact hid
            · rw [h2]; exact hch
            · rw [h3]; exact hp
            · exact decorF_update kids m (some i) i d0 d2 hkids hg h1 h2 h3
          · refine DecorT.node d0 ?_ hid hch hp ?_
            · rw [dictGet_set_ne _ _ _ _ hic]
              exact hget
            · exact decorF_update kids m (some i) c d d2 hkids hg h1 h2 h3

theorem decorF_update : ∀ (F : IForest) (m : List (Nat × Trace)) (par : Option Nat)
    (c : Nat) (d d2 : Trace), DecorF m par F →
    dictGet m c = some d →
    d2.id = d.id → d2.children = d.children → d2.parent_id = d.parent_id →
    DecorF (dictSet m c d2) par F
  | .nil, _, _, _, _, _, _, _, _, _, _ => .nil
  | .cons t rest, m, par, c, d, d2, h, hg, h1, h2, h3 => by
      cases h with
      | cons ht hrest =>
          exact .cons (decorT_update t m par c d d2 ht hg h1 h2 h3)
            (decorF_update rest m par c d d2 hrest hg h1 h2 h3)

end

/-! ## Appending a pushed leaf to the ghost forest -/

theorem itRoot_addLeaf (c n : Nat) (t : ITree) :
    itRoot (itAddLeaf c n t) = itRoot t := by
  cases t with
  | node i kids =>
      by_cases hic : i = c
      · simp [itAddLeaf, hic, itRoot]
      · simp [itAddLeaf, hic, itRoot]

theorem ifRoots_addLeaf : ∀ (c n : Nat) (F : IForest),
    ifRoots (ifAddLeaf c n F) = ifRoots F
  | _, _, .nil => rfl
  | c, n, .cons t rest => by
      simp [ifAddLeaf, ifRoots, itRoot_addLeaf, ifRoots_addLeaf c n rest]

mutual

theorem itAddLeaf_not_mem : ∀ (c n : Nat) (t : ITree), c ∉ itIds t →
    itAddLeaf c n t = t
  | c, n, .node i kids, hc => by
      have hic : ¬ i = c := by
        intro h
        exact hc (by simp [itIds, h])
      have hck : c ∉ ifIds kids := fun h => hc (by simp [itIds, h])
      simp [itAddLeaf, hic, ifAddLeaf_not_mem c n kids hck]

theorem ifAddLeaf_not_mem : ∀ (c n : Nat) (F : IForest), c ∉ ifIds F →
    ifAddLeaf c n F = F
  | _, _, .nil, _ => rfl
  | c, n, .cons t rest, hc => by
      have hct : c ∉ itIds t := fun h => hc (by simp [ifIds, h])
      have hcr : c ∉ ifIds rest := fun h => hc (by simp [ifIds, h])
      simp [ifAddLeaf, itAddLeaf_not_mem c n t hct, ifAddLeaf_not_mem c n rest hcr]

end

mutual

theorem itIds_addLeaf_perm : ∀ (c n : Nat) (t : ITree), (itIds t).Nodup →
    c ∈ itIds t → (itIds (itAddLeaf c n t)).Perm (n :: itIds t)
  | c, n, .node i kids, hnd, hc => by
      by_cases hic : i = c
      · subst hic
        have hids : itIds (itAddLeaf i n (.node i kids)) =
            i :: (ifIds kids ++ [n]) := by
          simp [itAddLeaf, itIds, ifIds, ifIds_snoc]
        rw [hids]
        simp only [itIds]
        exact (List.Perm.cons i (List.perm_append_singleton n (ifIds kids))).trans
          (List.Perm.swap n i (ifIds kids))
      · have hck : c ∈ ifIds kids := by
          rcases (by simpa [itIds] using hc : c = i ∨ c ∈ ifIds kids) with h | h
          · exact absurd h.symm hic
          · exact h
        have hnd2 : (ifIds kids).Nodup :=
          (List.nodup_cons.mp (by simpa [itIds] using hnd)).2
        have hids : itIds (itAddLeaf c n (.node i kids)) =
            i :: ifIds (ifAddLeaf c n kids) := by
          simp [itAddLeaf, hic, itIds]
        rw [hids]
        simp only [itIds]
        exact (List.Perm.cons i (ifIds_addLeaf_perm c n kids hnd2 hck)).trans
          (List.Perm.swap n i (ifIds kids))

theorem ifIds_addLeaf_perm : ∀ (c n : Nat) (F : IForest), (ifIds F).Nodup →
    c ∈ ifIds F → (ifIds (ifAddLeaf c n F)).Perm (n :: ifIds F)
  | c, n, .nil, _, hc => by simp [ifIds] at hc
  | c, n, .cons t rest, hnd, hc => by
      have hnd2 := List.nodup_append.mp (by simpa [ifIds] using hnd)
      rcases (by simpa [ifIds] using hc : c ∈ itIds t ∨ c ∈ ifIds rest) with hct | hcr
      · have hrest : ifAddLeaf c n rest = rest :=
          ifAddLeaf_not_mem c n rest (fun h => hnd2.2.2 hct h)
        have hids : ifIds (ifAddLeaf c n (.cons t rest)) =
            itIds (itAddLeaf c n t) ++ ifIds rest := by
          simp [ifAddLeaf, ifIds, hrest]
        rw [hids]
        simp only [ifIds]
        exact (itIds_addLeaf_perm c n t hnd2.1 hct).append_right (ifIds rest)
      · have ht : itAddLeaf c n t = t :=
          itAddLeaf_not_mem c n t (fun h => hnd2.2.2 h hcr)
        have hids : ifIds (ifAddLeaf c n (.cons t rest)) =
            itIds t ++ ifIds (ifAddLeaf c n rest) := by
          simp [ifAddLeaf, ifIds, ht]
        rw [hids]
        simp only [ifIds]
        exact ((ifIds_addLeaf_perm c n rest hnd2.2.1 hcr).append_left
          (itIds t)).trans List.perm_middle

end

mutual

theorem itOrd_addLeaf : ∀ (c n : Nat) (t : ITree), itOrd t = true →
    (∀ i ∈ itIds t, i < n) → itOrd (itAddLeaf c n t) = true
  | c, n, .node i kids, h, hlt => by
      have h2 := (by simpa [itOrd] using h : strictAsc (ifRoots kids) = true ∧
        ifOrd kids = true)
      by_cases hic : i = c
      · subst hic
        have hasc : strictAsc (ifRoots kids ++ [n]) = true :=
          strictAsc_snoc (ifRoots kids) n h2.1
            (fun x hx => hlt x (by simp [itIds, ifRoots_subset_ifIds kids x hx]))
        have hkids : ifOrd (ifSnoc kids (.node n .nil)) = true :=
          ifOrd_snoc kids (.node n .nil) h2.2 (by simp [itOrd, ifOrd, strictAsc, ifRoots])
        simp [itAddLeaf, itOrd, ifRoots_snoc, itRoot, hasc, hkids]
      · have hkids : ifOrd (ifAddLeaf c n kids) = true :=
          ifOrd_addLeaf c n kids h2.2 (fun j hj => hlt j (by simp [itIds, hj]))
        simp [itAddLeaf, hic, itOrd, ifRoots_addLeaf, h2.1, hkids]

theorem ifOrd_addLeaf : ∀ (c n : Nat) (F : IForest), ifOrd F = true →
    (∀ i ∈ ifIds F, i < n) → ifOrd (ifAddLeaf c n F) = true
  | _, _, .nil, _, _ => rfl
  | c, n, .cons t rest, h, hlt => by
      have h2 := (by simpa [ifOrd] using h : itOrd t = true ∧ ifOrd rest = true)
      have ht := itOrd_addLeaf c n t h2.1 (fun j hj => hlt j (by simp [ifIds, hj]))
      have hr := ifOrd_addLeaf c n rest h2.2 (fun j hj => hlt j (by simp [ifIds, hj]))
      simp [ifAddLeaf, ifOrd, ht, hr]

end

theorem addLeafUpd_get_untouched {m : List (Nat × Trace)} {c n : Nat}
    {pd2 tr2 : Trace} (j : Nat) (hjc : j ≠ c) (hjn : j ≠ n) :
    dictGet (dictSet (dictSet m c pd2) n tr2) j = dictGet m j := by
  rw [dictGet_set_ne _ _ _ _ hjn, dictGet_set_ne _ _ _ _ hjc]

mutual

theorem decorT_addLeaf : ∀ (t : ITree) (m : List (Nat × Trace)) (par : Option Nat)
    (c n : Nat) (pd pd2 tr2 : Trace),
    DecorT m par t → AddLeafUpd m c n pd pd2 tr2 →
    (itIds t).Nodup → (∀ i ∈ itIds t, i ≠ n) → c ∈ itIds t →
    DecorT (dictSet (dictSet m c pd2) n tr2) par (itAddLeaf c n t)
  | .node i kids, m, par, c, n, pd, pd2, tr2, h, hu, hnd, hfr, hc => by
      cases h with
      | node d hget hid hch hp hkids =>
          by_cases hic : i = c
          · subst hic
            have hdpd : d = pd := by
              have hgc := hu.hgc
              rw [hget] at hgc
              exact Option.some.inj hgc
            subst hdpd
            have hgoal : itAddLeaf i n (.node i kids) =
                ITree.node i (ifSnoc kids (.node n .nil)) := by
              simp [itAddLeaf]
            rw [hgoal]
            have hnotk : i ∉ ifIds kids :=
              (List.nodup_cons.mp (by simpa [itIds] using hnd)).1
            have hgc2 : dictGet (dictSet (dictSet m i pd2) n tr2) i = some pd2 := by
              rw [dictGet_set_ne _ _ _ _ hu.hcn, dictGet_set_self]
            refine DecorT.node pd2 hgc2 ?_ ?_ ?_ ?_
            · rw [hu.pd2_id]; exact hid
            · rw [hu.pd2_children, hch, ifRoots_snoc]
              rfl
            · rw [hu.pd2_parent]; exact hp
            · refine decorF_snoc _ _ ?_ ?_
              · refine decorF_mono kids m _ (some i) hkids (fun j hj => ?_)
                refine addLeafUpd_get_untouched j ?_ ?_
                · intro hj2; rw [hj2] at hj; exact hnotk hj
                · exact hfr j (by simp [itIds, hj])
              · refine DecorT.node tr2 (dictGet_set_self _ _ _) hu.tr2_id ?_ ?_ .nil
                · rw [hu.tr2_children]; rfl
                · rw [hu.tr2_parent]; exact hid
          · have hck : c ∈ ifIds kids := by
              rcases (by simpa [itIds] using hc : c = i ∨ c ∈ ifIds kids) with h2 | h2
              · exact absurd h2.symm hic
              · exact h2
            have hgoal : itAddLeaf c n (.node i kids) =
                ITree.node i (ifAddLeaf c n kids) := by
              simp [itAddLeaf, hic]
            rw [hgoal]
            have hin : i ≠ n := hfr i (by simp [itIds])
            have hgi : dictGet (dictSet (dictSet m c pd2) n tr2) i = some d := by
              rw [addLeafUpd_get_untouched i hic hin]
              exact hget
            refine DecorT.node d hgi hid ?_ hp ?_
            · rw [ifRoots_addLeaf]; exact hch
            · exact decorF_addLeaf kids m (some i) c n pd pd2 tr2 hkids hu
                (List.nodup_cons.mp (by simpa [itIds] using hnd)).2
                (fun j hj => hfr j (by simp [itIds, hj])) hck

theorem decorF_addLeaf : ∀ (F : IForest) (m : List (Nat × Trace)) (par : Option Nat)
    (c n : Nat) (pd pd2 tr2 : Trace),
    DecorF m par F → AddLeafUpd m c n pd pd2 tr2 →
    (ifIds F).Nodup → (∀ i ∈ ifIds F, i ≠ n) → c ∈ ifIds F →
    DecorF (dictSet (dictSet m c pd2) n tr2) par (ifAddLeaf c n F)
  | .nil, _, _, _, _, _, _, _, _, _, _, _, hc => by simp [ifIds] at hc
  | .cons t rest, m, par, c, n, pd, pd2, tr2, h, hu, hnd, hfr, hc => by
      cases h with
      | cons ht hrest =>
          have hnd2 := List.nodup_append.mp (by simpa [ifIds] using hnd)
          have hgoal : ifAddLeaf c n (.cons t rest) =
              IForest.cons (itAddLeaf c n t) (ifAddLeaf c n rest) := rfl
          rw [hgoal]
          rcases (by simpa [ifIds] using hc : c ∈ itIds t ∨ c ∈ ifIds rest) with
            hct | hcr
          · have hrid : ifAddLeaf c n rest = rest :=
              ifAddLeaf_not_mem c n rest (fun h2 => hnd2.2.2 hct h2)
            rw [hrid]
            refine DecorF.cons
              (decorT_addLeaf t m par c n pd pd2 tr2 ht hu hnd2.1
                (fun j hj => hfr j (by simp [ifIds, hj])) hct) ?_
            refine decorF_mono rest m _ par hrest (fun j hj => ?_)
            refine addLeafUpd_get_untouched j ?_ ?_
            · intro hj2; rw [hj2] at hj; exact hnd2.2.2 hct hj
            · exact hfr j (by simp [ifIds, hj])
          · have htid : itAddLeaf c n t = t :=
              itAddLeaf_not_mem c n t (fun h2 => hnd2.2.2 h2 hcr)
            rw [htid]
            refine DecorF.cons ?_
              (decorF_addLeaf rest m par c n pd pd2 tr2 hrest hu hnd2.2.1
                (fun j hj => hfr j (by simp [ifIds, hj])) hcr)
            refine decorT_mono t m _ par ht (fun j hj => ?_)
            refine addLeafUpd_get_untouched j ?_ ?_
            · intro hj2; rw [hj2] at hj; exact hnd2.2.2 hj hcr
            · exact hfr j (by simp [ifIds, hj])

end

/-! ## Rebuilding the serialized forest from a decorated map -/

mutual

theorem itNeed_le : ∀ t : ITree, itNeed t ≤ 2 * (itIds t).length
  | .node i kids => by
      have h := ifNeed_le kids
      show 1 + ifNeed kids ≤ 2 * (i :: ifIds kids).length
      simp only [List.length_cons]
      omega

theorem ifNeed_le : ∀ F : IForest, ifNeed F ≤ 2 * (ifIds F).length + 1
  | .nil => by simp [ifNeed, ifIds]
  | .cons t rest => by
      have h1 := itNeed_le t
      have h2 := ifNeed_le rest
      have h3 := itIds_length_pos t
      have h4 := le_max_left (itNeed t) (ifNeed rest)
      have h5 := le_max_right (itNeed t) (ifNeed rest)
      have h6 : max (itNeed t) (ifNeed rest) ≤
          2 * (itIds t).length + 2 * (ifIds rest).length := by
        apply max_le <;> omega
      show 1 + max (itNeed t) (ifNeed rest) ≤ 2 * (itIds t ++ ifIds rest).length + 1
      simp only [List.length_append]
      omega

end

mutual

theorem buildTree_decor : ∀ (t : ITree) (m : List (Nat × Trace)) (par : Option Nat)
    (fuel : Nat), DecorT m par t → itOrd t = true → itNeed t ≤ fuel →
    ∃ out : TraceTree, buildTree m fuel (itRoot t) = some out ∧
      treeSize out = (itIds t).length ∧
      treeIds out = itIds t ∧
      treeChildrenSorted out = true ∧
      (match out with | .node d _ => d.id.toList) = [itRoot t]
  | .node i kids, m, par, fuel, h, hord, hfuel => by
      cases h with
      | node d hget hid hch hp hkids =>
          cases fuel with
          | zero => exact absurd hfuel (by simp [itNeed])
          | succ f =>
              have hord2 := (by simpa [itOrd] using hord :
                strictAsc (ifRoots kids) = true ∧ ifOrd kids = true)
              have hfuel2 : ifNeed kids ≤ f := by
                have he : itNeed (.node i kids) = 1 + ifNeed kids := rfl
                omega
              obtain ⟨outF, hbF, hsz, hids, hsort, hroots⟩ :=
                buildForest_decor kids m (some i) f hkids hord2.2 hfuel2
              refine ⟨.node d outF, ?_, ?_, ?_, ?_, ?_⟩
              · simp [buildTree, itRoot, hget, hch, hbF]
              · simp [treeSize, hsz, itIds]
                omega
              · simp [treeIds, hids, itIds, hid, itRoot]
              · simp [treeChildrenSorted, hsort, hch, hord2.1]
              · simp [hid, itRoot]

theorem buildForest_decor : ∀ (F : IForest) (m : List (Nat × Trace))
    (par : Option Nat) (fuel : Nat),
    DecorF m par F → ifOrd F = true → ifNeed F ≤ fuel →
    ∃ out : TraceForest, buildForest m fuel (ifRoots F) = some out ∧
      forestSize out = (ifIds F).length ∧
      forestIds out = ifIds F ∧
      forestChildrenSorted out = true ∧
      forestRootIds out = ifRoots F
  | .nil, m, par, fuel, _, _, hfuel => by
      cases fuel with
      | zero => exact absurd hfuel (by simp [ifNeed])
      | succ f =>
          exact ⟨.nil, by simp [buildForest, ifRoots], by simp [forestSize, ifIds],
            by simp [forestIds, ifIds], rfl, by simp [forestRootIds, ifRoots]⟩
  | .cons t rest, m, par, fuel, h, hord, hfuel => by
      cases h with
      | cons ht hrest =>
          cases fuel with
          | zero => exact absurd hfuel (by simp [ifNeed])
          | succ f =>
              have hord2 := (by simpa [ifOrd] using hord :
                itOrd t = true ∧ ifOrd rest = true)
              have hfe : ifNeed (.cons t rest) = 1 + max (itNeed t) (ifNeed rest) := rfl
              have h4 := le_max_left (itNeed t) (ifNeed rest)
              have h5 := le_max_right (itNeed t) (ifNeed rest)
              have hf1 : itNeed t ≤ f := by omega
              have hf2 : ifNeed rest ≤ f := by omega
              obtain ⟨outT, hbT, hszT, hidsT, hsortT, hrootT⟩ :=
                buildTree_decor t m par f ht hord2.1 hf1
              obtain ⟨outF, hbF, hszF, hidsF, hsortF, hrootF⟩ :=
                buildForest_decor rest m par f hrest hord2.2 hf2
              refine ⟨.cons outT outF, ?_, ?_, ?_, ?_, ?_⟩
              · simp [buildForest, ifRoots, hbT, hbF]
              · simp [forestSize, hszT, hszF, ifIds]
              · simp [forestIds, hidsT, hidsF, ifIds]
              · simp [forestChildrenSorted, hsortT, hsortF]
              · cases outT with
                | node dOut kidsOut =>
                    have hrootT2 : dOut.id.toList = [itRoot t] := by simpa using hrootT
                    simp [forestRootIds, hrootF, ifRoots, hrootT2]

end

/-! ## Invariant preservation for push and pop -/

theorem pushT_inv (t : Tracer) (F : IForest) (now : Nat) (tr : Trace)
    (hI : TracerInv t F) (hf : freshPush tr = true) :
    ∃ F2 : IForest, TracerInv (t.pushT now tr) F2 ∧
      (ifIds F2).length = (ifIds F).length + 1 ∧
      (t.pushT now tr)._uuid_count = t._uuid_count + 1 := by
  have hf2 := (by simpa [freshPush, Option.isNone_iff_eq_none] using hf :
    tr.id = none ∧ tr.parent_id = none)
  have hid := hf2.1
  have hpar := hf2.2
  cases hc : t.current_trace_id with
  | none =>
      have heq : t.pushT now tr =
          { t with
              traces := t.traces ++ [t._uuid_count]
              current_trace_id := some t._uuid_count
              id_to_trace :=
                dictSet t.id_to_trace t._uuid_count
                  { tr with
                      id := some t._uuid_count
                      inputs :=
                        if tr.inputs.pyTruthy then to_serializable tr.inputs
                        else tr.inputs
                      children := []
                      start_time := some (tr.start_time.getD now)
                      node_name := t.node_name }
              _uuid_count := t._uuid_count + 1 } := by
        simp [Tracer.pushT, hc, hid]
      rw [heq]
      refine ⟨ifSnoc F (.node t._uuid_count .nil), ?_, ?_, rfl⟩
      · refine ⟨?_, ?_, ?_, ?_, ?_, ?_, ?_⟩
        · rw [ifRoots_snoc, hI.roots]
          rfl
        · refine decorF_snoc _ _ ?_ ?_
          · refine decorF_mono F _ _ none hI.decor (fun j hj => ?_)
            exact dictGet_set_ne _ _ _ _ (Nat.ne_of_lt (hI.bounded j hj))
          · refine DecorT.node _ (dictGet_set_self _ _ _) rfl rfl ?_ .nil
            exact hpar
        · rw [ifIds_snoc]
          refine List.nodup_append.mpr ⟨hI.nodup, ?_, ?_⟩
          · simp [itIds, ifIds]
          · intro a ha hb
            have := hI.bounded a ha
            have hab : a = t._uuid_count := by simpa [itIds, ifIds] using hb
            omega
        · intro i hi
          show i < t._uuid_count + 1
          rw [ifIds_snoc] at hi
          rcases List.mem_append.mp hi with h | h
          · have := hI.bounded i h
            omega
          · have : i = t._uuid_count := by simpa [itIds, ifIds] using h
            omega
        · rw [ifRoots_snoc]
          refine strictAsc_snoc _ _ hI.rootsAsc (fun x hx => ?_)
          exact hI.bounded x (ifRoots_subset_ifIds F x hx)
        · refine ifOrd_snoc F _ hI.ord ?_
          simp [itOrd, ifOrd, ifRoots, strictAsc]
        · refine .inr ⟨t._uuid_count, rfl, ?_⟩
          rw [ifIds_snoc]
          simp [itIds, ifIds]
      · rw [ifIds_snoc]
        simp [itIds, ifIds]
  | some cid =>
      have hcid : cid ∈ ifIds F := by
        rcases hI.current with h | ⟨c, hc2, hmem⟩
        · rw [hc] at h
          exact Option.noConfusion h
        · rw [hc] at hc2
          rw [Option.some.inj hc2]
          exact hmem
      obtain ⟨pd, hgc, hpdid, hpdpar⟩ := decorF_lookup F t.id_to_trace none cid
        hI.decor hcid
      have hcidn : cid ≠ t._uuid_count := Nat.ne_of_lt (hI.bounded cid hcid)
      have heq : t.pushT now tr =
          { t with
              current_trace_id := some t._uuid_count
              id_to_trace :=
                dictSet
                  (dictSet t.id_to_trace cid
                    { pd with children := pd.children ++ [t._uuid_count] })
                  t._uuid_count
                  { tr with
                      id := some t._uuid_count
                      inputs :=
                        if tr.inputs.pyTruthy then to_serializable tr.inputs
                        else tr.inputs
                      children := []
                      start_time := some (tr.start_time.getD now)
                      parent_id := pd.id }
              _uuid_count := t._uuid_count + 1 } := by
        simp [Tracer.pushT, hc, hgc, hid]
      rw [heq]
      have hu : AddLeafUpd t.id_to_trace cid t._uuid_count pd
          { pd with children := pd.children ++ [t._uuid_count] }
          { tr with
              id := some t._uuid_count
              inputs :=
                if tr.inputs.pyTruthy then to_serializable tr.inputs
                else tr.inputs
              children := []
              start_time := some (tr.start_time.getD now)
              parent_id := pd.id } :=
        ⟨hgc, hcidn, rfl, rfl, rfl, rfl, rfl, rfl⟩
      have hfr : ∀ i ∈ ifIds F, i ≠ t._uuid_count :=
        fun i hi => Nat.ne_of_lt (hI.bounded i hi)
      have hperm := ifIds_addLeaf_perm cid t._uuid_count F hI.nodup hcid
      refine ⟨ifAddLeaf cid t._uuid_count F, ?_, ?_, rfl⟩
      · refine ⟨?_, ?_, ?_, ?_, ?_, ?_, ?_⟩
        · rw [ifRoots_addLeaf]
          exact hI.roots
        · exact decorF_addLeaf F t.id_to_trace none cid t._uuid_count pd _ _
            hI.decor hu hI.nodup hfr hcid
        · refine hperm.nodup_iff.mpr ?_
          refine List.nodup_cons.mpr ⟨?_, hI.nodup⟩
          intro h
          exact hfr _ h rfl
        · intro i hi
          show i < t._uuid_count + 1
          rcases List.mem_cons.mp (hperm.mem_iff.mp hi) with h | h
          · omega
          · have := hI.bounded i h
            omega
        · rw [ifRoots_addLeaf]
          exact hI.rootsAsc
        · exact ifOrd_addLeaf cid t._uuid_count F hI.ord
            (fun i hi => hI.bounded i hi)
        · exact .inr ⟨t._uuid_count, rfl, hperm.mem_iff.mpr (by simp)⟩
      · rw [hperm.length_eq]
        rfl

theorem popT_state (t : Tracer) (now : Nat) (o : Option PyVal)
    (e : Option PyError) (cid : Nat) (pd : Trace)
    (hcur : t.current_trace_id = some cid)
    (hget : dictGet t.id_to_trace cid = some pd) :
    ∃ last3 : Trace, (t.popT now o e).1 =
      { t with
          id_to_trace := dictSet t.id_to_trace cid last3
          current_trace_id := last3.parent_id } ∧
      last3.id = pd.id ∧ last3.children = pd.children ∧
      last3.parent_id = pd.parent_id := by
  cases o with
  | none =>
      cases e with
      | none =>
          refine ⟨{ pd with end_time := some now }, ?_, rfl, rfl, rfl⟩
          simp [Tracer.popT, hcur, hget]
      | some e0 =>
          refine ⟨{ pd with
              error := some (Tracer.format_error e0)
              end_time := some now }, ?_, rfl, rfl, rfl⟩
          simp [Tracer.popT, hcur, hget]
  | some ov =>
      by_cases hio : ov.isIterator = true
      · cases e with
        | none =>
            refine ⟨{ pd with
                output := some (to_serializable (GeneratorProxy.wrap ov))
                end_time := some now }, ?_, rfl, rfl, rfl⟩
            simp [Tracer.popT, hcur, hget, hio, wrap_isGenProxy]
        | some e0 =>
            refine ⟨{ pd with
                output := some (to_serializable (GeneratorProxy.wrap ov))
                error := some (Tracer.format_error e0)
                end_time := some now }, ?_, rfl, rfl, rfl⟩
            simp [Tracer.popT, hcur, hget, hio, wrap_isGenProxy]
      · have hio2 : ov.isIterator = false := by
          cases h2 : ov.isIterator
          · rfl
          · exact absurd h2 hio
        have hgp : ov.isGenProxy = false := by
          cases ov <;> simp_all [PyVal.isIterator, PyVal.isGenProxy]
        cases e with
        | none =>
            refine ⟨{ pd with
                output := some (to_serializable ov)
                end_time := some now }, ?_, rfl, rfl, rfl⟩
            simp [Tracer.popT, hcur, hget, hio2, hgp]
        | some e0 =>
            refine ⟨{ pd with
                output := some (to_serializable ov)
                error := some (Tracer.format_error e0)
                end_time := some now }, ?_, rfl, rfl, rfl⟩
            simp [Tracer.popT, hcur, hget, hio2, hgp]

theorem popT_inv (t : Tracer) (F : IForest) (now : Nat) (o : Option PyVal)
    (e : Option PyError) (hI : TracerInv t F) :
    TracerInv (t.popT now o e).1 F ∧
    (t.popT now o e).1._uuid_count = t._uuid_count := by
  cases hc : t.current_trace_id with
  | none =>
      have heq : (t.popT now o e).1 = t := by
        simp [Tracer.popT, hc]
      rw [heq]
      exact ⟨hI, rfl⟩
  | some cid =>
      have hcid : cid ∈ ifIds F := by
        rcases hI.current with h | ⟨c, hc2, hmem⟩
        · rw [hc] at h
          exact Option.noConfusion h
        · rw [hc] at hc2
          rw [Option.some.inj hc2]
          exact hmem
      obtain ⟨pd, hgc, hpdid, hpdpar⟩ := decorF_lookup F t.id_to_trace none cid
        hI.decor hcid
      obtain ⟨last3, heq, h1, h2, h3⟩ := popT_state t now o e cid pd hc hgc
      rw [heq]
      refine ⟨⟨hI.roots, ?_, hI.nodup, hI.bounded, hI.rootsAsc, hI.ord, ?_⟩, rfl⟩
      · exact decorF_update F t.id_to_trace none cid pd last3 hI.decor hgc h1 h2 h3
      · rw [h3]
        rcases hpdpar with h | ⟨p, hp, hpmem⟩
        · exact .inl h
        · exact .inr ⟨p, hp, hpmem⟩

/-! ## Claim C1: running a full push/pop sequence -/

theorem init_inv (rid : String) (nn : Option String) :
    TracerInv (Tracer.init rid nn) .nil :=
  ⟨rfl, .nil, by simp [ifIds], by simp [ifIds], rfl, rfl, .inl rfl⟩

theorem runT_inv : ∀ (ops : List TraceOp) (t : Tracer) (F : IForest) (now : Nat),
    TracerInv t F → freshPushes ops = true →
    ∃ F2 : IForest, TracerInv (runT t now ops) F2 ∧
      (ifIds F2).length = (ifIds F).length + countPushes ops ∧
      (runT t now ops)._uuid_count = t._uuid_count + countPushes ops
  | [], t, F, now, hI, _ =>
      ⟨F, hI, by simp [countPushes], by simp [runT, countPushes]⟩
  | .push tr :: rest, t, F, now, hI, hfp => by
      have hsplit : freshPush tr = true ∧ freshPushes rest = true := by
        simpa [freshPushes] using hfp
      obtain ⟨F1, hI1, hlen1, hcnt1⟩ := pushT_inv t F now tr hI hsplit.1
      obtain ⟨F2, hI2, hlen2, hcnt2⟩ :=
        runT_inv rest (t.pushT now tr) F1 (now + 1) hI1 hsplit.2
      have hrw : runT t now (.push tr :: rest) =
          runT (t.pushT now tr) (now + 1) rest := rfl
      have hcp : countPushes (.push tr :: rest) = countPushes rest + 1 := rfl
      refine ⟨F2, ?_, ?_, ?_⟩
      · rw [hrw]
        exact hI2
      · rw [hcp]
        omega
      · rw [hrw, hcp]
        omega
  | .pop o er :: rest, t, F, now, hI, hfp => by
      have hfr : freshPushes rest = true := by
        simpa [freshPushes] using hfp
      obtain ⟨hI1, hcnt1⟩ := popT_inv t F now o er hI
      obtain ⟨F2, hI2, hlen2, hcnt2⟩ :=
        runT_inv rest ((t.popT now o er).1) F (now + 1) hI1 hfr
      have hrw : runT t now (.pop o er :: rest) =
          runT ((t.popT now o er).1) (now + 1) rest := rfl
      have hcp : countPushes (.pop o er :: rest) = countPushes rest := rfl
      refine ⟨F2, ?_, ?_, ?_⟩
      · rw [hrw]
        exact hI2
      · rw [hcp]
        omega
      · rw [hrw, hcp]
        omega

theorem runOps_some : ∀ (ops : List TraceOp) (t : Tracer) (now : Nat),
    runOps (some t) now ops = some (runT t now ops)
  | [], t, now => rfl
  | .push tr :: rest, t, now => by
      have h := runOps_some rest (t.pushT now tr) (now + 1)
      simpa [runOps, runT, stepOp, stepT, Tracer.push] using h
  | .pop o e :: rest, t, now => by
      have h := runOps_some rest ((t.popT now o e).1) (now + 1)
      simpa [runOps, runT, stepOp, stepT, Tracer.pop] using h

/-- C1: starting a context and running any sequence of pushes of fresh traces
and pops, the forest returned by `end_tracing` exists (the serialization
succeeds), its total node count (roots plus all transitive children) equals
the number of push calls, its node ids are exactly the push indices 0, 1, ...
(the k-th push call creates the node with id k), and the root list as well as
every node's `children` list is strictly ascending in those ids — that is,
children appear in the order the corresponding child calls were pushed. -/
theorem tracer_run_tree (ops : List TraceOp) (rid : String) (nn : Option String)
    (hfresh : freshPushes ops = true) :
    ∃ out : TraceForest,
      (Tracer.end_tracing (runOps (Tracer.start_tracing none rid nn) 0 ops) none).2
        = some out ∧
      forestSize out = countPushes ops ∧
      (forestIds out).Perm (List.range (countPushes ops)) ∧
      strictAsc (forestRootIds out) = true ∧
      forestChildrenSorted out = true := by
  have hstart : Tracer.start_tracing none rid nn = some (Tracer.init rid nn) := rfl
  rw [hstart, runOps_some]
  obtain ⟨F2, hI2, hlen, hcnt⟩ :=
    runT_inv ops (Tracer.init rid nn) .nil 0 (init_inv rid nn) hfresh
  have hlen2 : (ifIds F2).length = countPushes ops := by
    simpa [ifIds] using hlen
  have hcnt2 : (runT (Tracer.init rid nn) 0 ops)._uuid_count = countPushes ops := by
    simpa [Tracer.init] using hcnt
  have hend : Tracer.end_tracing (some (runT (Tracer.init rid nn) 0 ops)) none =
      (none, (runT (Tracer.init rid nn) 0 ops).to_json) := rfl
  rw [hend]
  have hneedle := ifNeed_le F2
  have hneed : ifNeed F2 ≤ 2 * (runT (Tracer.init rid nn) 0 ops)._uuid_count +
      (ifRoots F2).length + 2 := by
    omega
  obtain ⟨out, hb, hsz, hids, hsort, hroots⟩ :=
    buildForest_decor F2 (runT (Tracer.init rid nn) 0 ops).id_to_trace none _
      hI2.decor hI2.ord hneed
  refine ⟨out, ?_, ?_, ?_, ?_, hsort⟩
  · show (runT (Tracer.init rid nn) 0 ops).to_json = some out
    rw [Tracer.to_json, hI2.roots, hb]
  · rw [hsz, hlen2]
  · rw [hids]
    have hsub : ifIds F2 ⊆ List.range (countPushes ops) := by
      intro x hx
      rw [List.mem_range]
      have := hI2.bounded x hx
      omega
    have hsp := List.subperm_of_subset hI2.nodup hsub
    refine hsp.perm_of_length_le ?_
    rw [List.length_range, hlen2]
  · rw [hroots]
    exact hI2.rootsAsc

theorem tracer_run_tree_witness :
    ∃ out : TraceForest,
      (Tracer.end_tracing (runOps (Tracer.start_tracing none "run1" none) 0
          sampleOps) none).2 = some out ∧
      forestSize out = countPushes sampleOps ∧
      (forestIds out).Perm (List.range (countPushes sampleOps)) ∧
      strictAsc (forestRootIds out) = true ∧
      forestChildrenSorted out = true :=
  tracer_run_tree sampleOps "run1" none (by decide)
